import Mathlib

set_option maxRecDepth 100000

/-!
Shallow embedding of the Kyber CPA encryption path (src/include/encryption.hpp,
`cpapke::encrypt`) and the CCA encapsulation path (src/include/encapsulation.hpp,
`ccakem::encapsulate`).

Byte buffers are lists of naturals (each cell a value mod 256 where it matters);
field elements `ff::ff_t` are naturals kept canonical in [0, q), q = 3329, with
arithmetic carrying an explicit mod q.  The hash / XOF / NTT collaborators
(sha3_256.hpp, sha3_512.hpp, shake128.hpp, shake256.hpp, ntt.hpp and
`kyber_utils::parse`) are outside the provided source slice; the specification
treats them as external collaborators defined only by their interfaces, so they
appear here as fields of an interface record `Primitives`.  The bit-exact
serialization, compression and CBD routines (serialize.hpp, compression.hpp,
sampling.hpp) are likewise outside the slice but are given concrete formulas by
the specification, so they are modelled concretely from those formulas.
-/

/-- A byte cell: a natural number, reduced mod 256 wherever uint8_t semantics matter. -/
abbrev Byte := Nat

/-- The Kyber modulus q = 3329. -/
def kyberQ : Nat := 3329

/-- ff::ff_t — an element of the field Z_q, q = 3329, kept canonical in [0, q)
(the source stores unsigned 16-bit words canonicalised into [0, q)). -/
abbrev ff.ff_t := Nat

/-- A polynomial buffer: the source layout is a run of 256 `ff::ff_t` cells. -/
abbrev Rq := List ff.ff_t

/-- Little-endian value of a byte string: bit t of the string is bit (t mod 8)
of byte (t div 8).  Used to model the spec's little-endian bit packing. -/
def bytesToNat : List Byte → Nat
  | [] => 0
  | b :: bs => b % 256 + 256 * bytesToNat bs

/-- A fixed-size zero-initialised buffer of n cells receiving the data xs:
the source writes primitive outputs into stack arrays of a static size that
were zero-initialised (`{}` / memset), so a value occupies exactly n cells. -/
def fitLen (n : Nat) (d : α) (xs : List α) : List α := (xs ++ List.replicate n d).take n

/-- A 256-coefficient polynomial buffer (zero-initialised) receiving p. -/
def pfit : Rq → Rq := fitLen 256 0

/-- The n little-endian bytes of x. -/
def natToBytes : Nat → Nat → List Byte
  | 0, _ => []
  | n + 1, x => x % 256 :: natToBytes n (x / 256)

/-- Successive l-bit groups of the packed value x, low bits first: n field
elements, each canonicalised into Z_q. -/
def unpackCoeffs (l : Nat) : Nat → Nat → Rq
  | 0, _ => []
  | n + 1, x => (x &&& (2 ^ l - 1)) % kyberQ :: unpackCoeffs l n (x >>> l)

/-- Modelled from the spec: serialize.hpp (`kyber_utils::decode<l>`) is outside
the provided slice.  Decode_l: coefficient i is bits [i*l, (i+1)*l) of the
32*l-byte little-endian bit string, canonicalised into Z_q. -/
def kyber_utils.decode (l : Nat) (bytes : List Byte) : Rq :=
  unpackCoeffs l 256 (bytesToNat (bytes.take (32 * l)))

/-- The packed little-endian bit value of a coefficient list, l bits per
coefficient, low coefficients in low bits. -/
def packCoeffs (l : Nat) : Rq → Nat
  | [] => 0
  | c :: cs => (c &&& (2 ^ l - 1)) + (packCoeffs l cs <<< l)

/-- Modelled from the spec: serialize.hpp (`kyber_utils::encode<l>`) is outside
the provided slice.  Encode_l: little-endian bit packing of the 256-cell
coefficient buffer, l bits each, into exactly 32*l bytes. -/
def kyber_utils.encode (l : Nat) (p : Rq) : List Byte :=
  natToBytes (32 * l) (packCoeffs l (fitLen 256 0 p))

/-- Compress_d(x) = round((2^d / q) * x) mod 2^d, rounding half up (q = 3329). -/
def compressCoeff (d : Nat) (x : Nat) : Nat := (2 ^ (d + 1) * x + 3329) / (2 * 3329) % 2 ^ d

/-- Decompress_d(y) = round((q / 2^d) * y), rounding half up (q = 3329). -/
def decompressCoeff (d : Nat) (y : Nat) : Nat := (2 * 3329 * y + 2 ^ d) / 2 ^ (d + 1)

/-- Modelled from the spec: compression.hpp (`kyber_utils::poly_compress<d>`)
is outside the provided slice.  In-place coefficient-wise Compress_d. -/
def kyber_utils.poly_compress (d : Nat) (p : Rq) : Rq :=
  p.map (compressCoeff d)

/-- Modelled from the spec: compression.hpp (`kyber_utils::poly_decompress<d>`)
is outside the provided slice.  In-place coefficient-wise Decompress_d. -/
def kyber_utils.poly_decompress (d : Nat) (p : Rq) : Rq :=
  p.map (decompressCoeff d)

/-- Population count of the low n bits of x. -/
def popcnt : Nat → Nat → Nat
  | 0, _ => 0
  | n + 1, x => (x &&& 1) + popcnt n (x >>> 1)

/-- n CBD_eta coefficients from the packed bit value x, low bits first: each
coefficient is popcount(a) - popcount(b) in Z_q for consecutive eta-bit
groups a then b. -/
def cbdCoeffs (eta : Nat) : Nat → Nat → Rq
  | 0, _ => []
  | n + 1, x =>
      (popcnt eta x + kyberQ - popcnt eta (x >>> eta)) % kyberQ
        :: cbdCoeffs eta n (x >>> (2 * eta))

/-- Modelled from the spec: sampling.hpp (`kyber_utils::cbd<eta>`) is outside
the provided slice.  CBD_eta: from 64*eta bytes, coefficient i is
popcount(a) - popcount(b) in Z_q, where a and b are the eta-bit groups that
start at bit positions i*2*eta and i*2*eta + eta of the byte string. -/
def kyber_utils.cbd (eta : Nat) (bytes : List Byte) : Rq :=
  cbdCoeffs eta 256 (bytesToNat (bytes.take (64 * eta)))

/-- Modelled from the spec: the hash / XOF / NTT collaborators are outside the
provided slice and the spec defines only their interfaces (absorb bytes,
squeeze bytes; NTT layer operations on 256-coefficient polynomials).
`parseXof s` is the rejection-sampling parse of the SHAKE128 stream seeded
with the byte string s (shake128.hpp plus `kyber_utils::parse`);
`shakeRead s n` is the first n bytes squeezed from a SHAKE256 instance that
absorbed s exactly.  `ntt`, `intt`, `polymul` are ntt.hpp's forward NTT,
inverse NTT and NTT-domain pointwise (base-case) multiplication. -/
structure Primitives where
  sha3_256 : List Byte → List Byte
  sha3_512 : List Byte → List Byte
  shakeRead : List Byte → Nat → List Byte
  parseXof : List Byte → Rq
  ntt : Rq → Rq
  intt : Rq → Rq
  polymul : Rq → Rq → Rq

/-- The 32-byte digest buffer filled by `sha3_256::hash`. -/
def digest256 (P : Primitives) (xs : List Byte) : List Byte := fitLen 32 0 (P.sha3_256 xs)

/-- The 64-byte digest buffer filled by `sha3_512::hash`. -/
def digest512 (P : Primitives) (xs : List Byte) : List Byte := fitLen 64 0 (P.sha3_512 xs)

/-- The n-byte buffer filled by `shake256::read` after absorbing s. -/
def shakeSqueeze (P : Primitives) (s : List Byte) (n : Nat) : List Byte :=
  fitLen n 0 (P.shakeRead s n)

/-- encryption.hpp step 2: t_prime[i] = decode<12>(pubkey + i*12*32). -/
def tPrime (pubkey : List Byte) (i : Nat) : Rq :=
  kyber_utils.decode 12 ((pubkey.drop (i * (12 * 32))).take (12 * 32))

/-- encryption.hpp steps 4-8: the 34-byte xof_in buffer — zero-initialised,
the 32 bytes of rho copied in, then xof_in[32] := i and xof_in[33] := j
(uint8_t casts reduce mod 256). -/
def xofIn (rho : List Byte) (i j : Nat) : List Byte :=
  ((rho.take 32 ++ [0, 0]).set 32 (i % 256)).set 33 (j % 256)

/-- encryption.hpp steps 4-8: A_prime[i][j] = parse(shake128(xof_in)), written
into a zero-initialised 256-cell slice of A_prime. -/
def Amat (P : Primitives) (k : Nat) (pubkey : List Byte) (i j : Nat) : Rq :=
  pfit (P.parseXof (xofIn (pubkey.drop (k * (12 * 32))) i j))

/-- encryption.hpp steps 9-17: the 33-byte prf_in buffer — zero-initialised,
the 32 bytes of rcoin copied in, then prf_in[32] := N (N is a uint8_t). -/
def prfIn (rcoin : List Byte) (n : Nat) : List Byte :=
  (rcoin.take 32 ++ [0]).set 32 (n % 256)

/-- encryption.hpp steps 9-12: r[i] = cbd<eta1>(shake256(prf_in).read(64*eta1)),
with PRF counter N = i. -/
def rPoly (P : Primitives) (eta1 : Nat) (rcoin : List Byte) (i : Nat) : Rq :=
  kyber_utils.cbd eta1 (shakeSqueeze P (prfIn rcoin i) (64 * eta1))

/-- encryption.hpp steps 13-16: e1[i] = cbd<eta2>(shake256(prf_in).read(64*eta2)),
with PRF counter N = k + i. -/
def e1Poly (P : Primitives) (k eta2 : Nat) (rcoin : List Byte) (i : Nat) : Rq :=
  kyber_utils.cbd eta2 (shakeSqueeze P (prfIn rcoin (k + i)) (64 * eta2))

/-- encryption.hpp step 17: e2 = cbd<eta2>(shake256(prf_in).read(64*eta2)),
with PRF counter N = 2*k. -/
def e2Poly (P : Primitives) (k eta2 : Nat) (rcoin : List Byte) : Rq :=
  kyber_utils.cbd eta2 (shakeSqueeze P (prfIn rcoin (2 * k)) (64 * eta2))

/-- encryption.hpp step 18: r[i] is NTT'd in place. -/
def rHat (P : Primitives) (eta1 : Nat) (rcoin : List Byte) (i : Nat) : Rq :=
  pfit (P.ntt (rPoly P eta1 rcoin i))

/-- Coefficient-wise addition in Z_q (the source's `+=` loops over 256 cells),
keeping values canonical in [0, q). -/
def polyAdd (a b : Rq) : Rq := List.zipWith (fun x y => (x + y) % kyberQ) a b

/-- Accumulation of k polynomials into a zero-initialised 256-cell buffer
(the source's `u[off + l] += tmp[l]` loops). -/
def polyAccum (k : Nat) (f : Nat → Rq) : Rq :=
  (List.range k).foldl (fun acc j => polyAdd acc (f j)) (List.replicate 256 0)

/-- encryption.hpp step 19: u[i] = intt(sum over j of A_prime[i][j] * rHat[j]) + e1[i]. -/
def uPoly (P : Primitives) (k eta1 eta2 : Nat) (pubkey rcoin : List Byte) (i : Nat) : Rq :=
  polyAdd
    (pfit (P.intt (polyAccum k
      (fun j => pfit (P.polymul (Amat P k pubkey i j) (rHat P eta1 rcoin j))))))
    (e1Poly P k eta2 rcoin i)

/-- encryption.hpp step 20: v = intt(sum over i of t_prime[i] * rHat[i]) + e2
+ poly_decompress<1>(decode<1>(msg)). -/
def vPoly (P : Primitives) (k eta1 eta2 : Nat) (pubkey msg rcoin : List Byte) : Rq :=
  polyAdd
    (polyAdd
      (pfit (P.intt (polyAccum k
        (fun i => pfit (P.polymul (tPrime pubkey i) (rHat P eta1 rcoin i))))))
      (e2Poly P k eta2 rcoin))
    (kyber_utils.poly_decompress 1 (kyber_utils.decode 1 msg))

/-- encryption.hpp step 21: the first n u-blocks of the ciphertext, block i
written at byte offset i*du*32 as encode<du>(poly_compress<du>(u[i])). -/
def ctBlocks (P : Primitives) (k eta1 eta2 du : Nat) (pubkey rcoin : List Byte) : Nat → List Byte
  | 0 => []
  | i + 1 => ctBlocks P k eta1 eta2 du pubkey rcoin i ++
      kyber_utils.encode du (kyber_utils.poly_compress du (uPoly P k eta1 eta2 pubkey rcoin i))

/-- cpapke::encrypt (encryption.hpp): the full ciphertext — k u-blocks followed
at byte offset k*du*32 by encode<dv>(poly_compress<dv>(v)). -/
def cpapke.encrypt (P : Primitives) (k eta1 eta2 du dv : Nat)
    (pubkey msg rcoin : List Byte) : List Byte :=
  ctBlocks P k eta1 eta2 du pubkey rcoin k ++
    kyber_utils.encode dv (kyber_utils.poly_compress dv (vPoly P k eta1 eta2 pubkey msg rcoin))

/-- shake256::shake256 — the returned KDF handle, identified by the byte string
it has absorbed (absorb-then-squeeze state machine, pre-squeeze). -/
structure Shake256 where
  absorbed : List Byte

/-- ccakem::encapsulate (encapsulation.hpp).  `mrand` is the single 32-byte
draw `kyber_utils::random_data` places into the zero-initialised buffer m.
Returns (ciphertext, SHAKE256 KDF handle). -/
def ccakem.encapsulate (P : Primitives) (k eta1 eta2 du dv : Nat)
    (pubkey mrand : List Byte) : List Byte × Shake256 :=
  let m := fitLen 32 0 mrand
  let g_in := digest256 P m ++ digest256 P (pubkey.take (k * (12 * 32) + 32))
  let g_out := digest512 P g_in
  let cipher := cpapke.encrypt P k eta1 eta2 du dv pubkey g_in (g_out.drop 32)
  let kdf_in := g_out.take 32 ++ digest256 P cipher
  (cipher, ⟨kdf_in⟩)

/-- A checked read of n bytes at offset off: succeeds exactly when the read
stays inside the buffer. -/
def readBytes (xs : List Byte) (off n : Nat) : Option (List Byte) :=
  if off + n ≤ xs.length then some ((xs.drop off).take n) else none

/-- The n reads `decode<12>(pubkey + i*12*32)` of encryption.hpp step 2,
each checked against the public-key buffer bounds. -/
def pkReads (pubkey : List Byte) : Nat → Option Unit
  | 0 => some ()
  | i + 1 => do
      let _ ← readBytes pubkey (i * (12 * 32)) (12 * 32)
      pkReads pubkey i

/-- cpapke::encrypt with every read of a caller buffer bounds-checked: the k
384-byte reads of t_prime decoding, the 32-byte read of rho at offset k*12*32,
the 32-byte memcpy from rcoin, and the 32-byte read of msg by decode<1>.
Returns none exactly when some read would leave its buffer. -/
def cpapke.encryptChecked (P : Primitives) (k eta1 eta2 du dv : Nat)
    (pubkey msg rcoin : List Byte) : Option (List Byte) := do
  let _ ← pkReads pubkey k
  let _ ← readBytes pubkey (k * (12 * 32)) 32
  let _ ← readBytes rcoin 0 32
  let _ ← readBytes msg 0 32
  pure (cpapke.encrypt P k eta1 eta2 du dv pubkey msg rcoin)

/-- ccakem::encapsulate with every read of a buffer bounds-checked: the
pklen-byte hash of pubkey, the reads of the inner cpapke::encrypt call on
(pubkey, g_in, g_out + 32), and the ctlen-byte hash of the ciphertext buffer. -/
def ccakem.encapsulateChecked (P : Primitives) (k eta1 eta2 du dv : Nat)
    (pubkey mrand : List Byte) : Option (List Byte × Shake256) := do
  let _ ← readBytes pubkey 0 (k * (12 * 32) + 32)
  let g_in := digest256 P (fitLen 32 0 mrand) ++ digest256 P (pubkey.take (k * (12 * 32) + 32))
  let _ ← cpapke.encryptChecked P k eta1 eta2 du dv pubkey g_in ((digest512 P g_in).drop 32)
  let res := ccakem.encapsulate P k eta1 eta2 du dv pubkey mrand
  let _ ← readBytes res.1 0 (k * (32 * du) + 32 * dv)
  pure res

/-- The caller-visible byte buffers around a cpapke::encrypt call: the three
const __restrict input buffers and the output buffer. -/
structure CallerState where
  pk : List Byte
  msg : List Byte
  rcoin : List Byte
  out : List Byte

/-- One cpapke::encrypt call as a transformer of the caller-visible state:
the source takes pk, msg and rcoin through const-qualified __restrict
pointers and writes every byte of the k*du*32 + dv*32 output buffer. -/
def encryptCall (P : Primitives) (k eta1 eta2 du dv : Nat) (s : CallerState) : CallerState :=
  { pk := s.pk, msg := s.msg, rcoin := s.rcoin,
    out := cpapke.encrypt P k eta1 eta2 du dv s.pk s.msg s.rcoin }

/-- A concrete instantiation of the external collaborators, used to evaluate
the embedding at concrete inputs (the interface makes no promise about the
collaborators beyond their shapes). -/
def dummyPrims : Primitives where
  sha3_256 := fun _ => List.replicate 32 0
  sha3_512 := fun _ => List.replicate 64 0
  shakeRead := fun _ n => List.replicate n 0
  parseXof := fun _ => List.replicate 256 0
  ntt := id
  intt := id
  polymul := fun _ _ => List.replicate 256 0

/-- A second concrete instantiation whose parse result records bytes 32 and 33
of the XOF seed, separating seeds that differ in those positions. -/
def sensPrims : Primitives :=
  { dummyPrims with parseXof := fun s => [s.getD 32 0 % kyberQ, s.getD 33 0 % kyberQ] }

/-- A concrete all-zero Kyber512-sized public key (k = 2): 2*384 + 32 = 800 bytes. -/
def pk0 : List Byte := List.replicate (2 * (12 * 32) + 32) 0

/-- A concrete 32-byte RNG draw of all ones. -/
def mOnes : List Byte := List.replicate 32 1

/-- A concrete 33-byte buffer agreeing with mOnes on its first 32 bytes. -/
def mLong : List Byte := List.replicate 32 1 ++ [7]

/-- A concrete 32-byte all-zero random coin. -/
def rc0 : List Byte := List.replicate 32 0

theorem fitLen_length (n : Nat) (d : α) (xs : List α) : (fitLen n d xs).length = n := by
  simp [fitLen]

theorem fitLen_eq_self (n : Nat) (d : α) (xs : List α) (h : xs.length = n) :
    fitLen n d xs = xs := by
  subst h
  simp [fitLen]

theorem fitLen_take (n : Nat) (d : α) (xs : List α) :
    fitLen n d (xs.take n) = fitLen n d xs := by
  simp only [fitLen, List.take_append_eq_append_take, List.take_take, Nat.min_self,
    List.length_take]
  congr 2
  omega

theorem natToBytes_length (n : Nat) : ∀ x, (natToBytes n x).length = n := by
  induction n with
  | zero => intro x; rfl
  | succ m ih => intro x; simp [natToBytes, ih]

theorem encode_length (l : Nat) (p : Rq) : (kyber_utils.encode l p).length = 32 * l :=
  natToBytes_length (32 * l) _

theorem ctBlocks_length (P : Primitives) (k eta1 eta2 du : Nat) (pubkey rcoin : List Byte)
    (n : Nat) : (ctBlocks P k eta1 eta2 du pubkey rcoin n).length = n * (32 * du) := by
  induction n with
  | zero => simp [ctBlocks]
  | succ m ih => simp [ctBlocks, ih, encode_length]; ring

theorem encrypt_length (P : Primitives) (k eta1 eta2 du dv : Nat)
    (pubkey msg rcoin : List Byte) :
    (cpapke.encrypt P k eta1 eta2 du dv pubkey msg rcoin).length = k * (32 * du) + 32 * dv := by
  simp [cpapke.encrypt, ctBlocks_length, encode_length]

theorem set_append_add (l₁ l₂ : List α) (n : Nat) (a : α) :
    (l₁ ++ l₂).set (l₁.length + n) a = l₁ ++ l₂.set n a := by
  induction l₁ with
  | nil => simp
  | cons x xs ih => simp [List.set, Nat.succ_add, ih]

theorem xofIn_rho (rho : List Byte) (i j : Nat) (h : 32 ≤ rho.length) :
    xofIn rho i j = rho.take 32 ++ [i % 256, j % 256] := by
  have h32 : (rho.take 32).length = 32 := by simp; omega
  unfold xofIn
  have e1 : (rho.take 32 ++ [0, 0]).set 32 (i % 256) = rho.take 32 ++ [i % 256, 0] := by
    have := set_append_add (rho.take 32) [0, 0] 0 (i % 256)
    rw [h32] at this
    simpa using this
  have e2 : (rho.take 32 ++ [i % 256, 0]).set 33 (j % 256) =
      rho.take 32 ++ [i % 256, j % 256] := by
    have := set_append_add (rho.take 32) [i % 256, 0] 1 (j % 256)
    rw [h32] at this
    simpa using this
  rw [e1, e2]

theorem prfIn_rc (rcoin : List Byte) (n : Nat) (h : 32 ≤ rcoin.length) :
    prfIn rcoin n = rcoin.take 32 ++ [n % 256] := by
  have h32 : (rcoin.take 32).length = 32 := by simp; omega
  unfold prfIn
  have := set_append_add (rcoin.take 32) [0] 0 (n % 256)
  rw [h32] at this
  simpa using this

theorem decode_take (l : Nat) (bytes : List Byte) :
    kyber_utils.decode l (bytes.take (32 * l)) = kyber_utils.decode l bytes := by
  simp [kyber_utils.decode, List.take_take]

theorem prfIn_take (rcoin : List Byte) (n : Nat) : prfIn (rcoin.take 32) n = prfIn rcoin n := by
  simp [prfIn, List.take_take]

theorem xofIn_take (rho : List Byte) (i j : Nat) : xofIn (rho.take 32) i j = xofIn rho i j := by
  simp [xofIn, List.take_take]

theorem tPrime_take (k : Nat) (pubkey : List Byte) (i : Nat) (hik : i < k) :
    tPrime (pubkey.take (k * (12 * 32) + 32)) i = tPrime pubkey i := by
  unfold tPrime
  congr 1
  rw [List.drop_take]
  rw [List.take_take]
  congr 1
  have : 12 * 32 ≤ k * (12 * 32) + 32 - i * (12 * 32) := by
    have h1 : (i + 1) * (12 * 32) ≤ k * (12 * 32) := Nat.mul_le_mul_right _ hik
    omega
  omega

theorem Amat_take (P : Primitives) (k : Nat) (pubkey : List Byte) (i j : Nat) :
    Amat P k (pubkey.take (k * (12 * 32) + 32)) i j = Amat P k pubkey i j := by
  unfold Amat
  rw [List.drop_take]
  have h : k * (12 * 32) + 32 - k * (12 * 32) = 32 := by omega
  rw [h, xofIn_take]

theorem polyAccum_congr (k : Nat) (f g : Nat → Rq) (h : ∀ i, i < k → f i = g i) :
    polyAccum k f = polyAccum k g := by
  unfold polyAccum
  induction k with
  | zero => rfl
  | succ m ih =>
      rw [List.range_succ, List.foldl_append, List.foldl_append]
      rw [ih (fun i hi => h i (Nat.lt_succ_of_lt hi))]
      simp [h m (Nat.lt_succ_self m)]

theorem rPoly_take (P : Primitives) (eta1 : Nat) (rcoin : List Byte) (i : Nat) :
    rPoly P eta1 (rcoin.take 32) i = rPoly P eta1 rcoin i := by
  simp [rPoly, prfIn_take]

theorem rHat_take (P : Primitives) (eta1 : Nat) (rcoin : List Byte) (i : Nat) :
    rHat P eta1 (rcoin.take 32) i = rHat P eta1 rcoin i := by
  simp [rHat, rPoly_take]

theorem uPoly_take (P : Primitives) (k eta1 eta2 : Nat) (pubkey rcoin : List Byte) (i : Nat) :
    uPoly P k eta1 eta2 (pubkey.take (k * (12 * 32) + 32)) (rcoin.take 32) i =
      uPoly P k eta1 eta2 pubkey rcoin i := by
  unfold uPoly e1Poly
  rw [prfIn_take]
  congr 2
  congr 1
  apply polyAccum_congr
  intro j _
  rw [Amat_take, rHat_take]

theorem vPoly_take (P : Primitives) (k eta1 eta2 : Nat) (pubkey msg rcoin : List Byte) :
    vPoly P k eta1 eta2 (pubkey.take (k * (12 * 32) + 32)) (msg.take 32) (rcoin.take 32) =
      vPoly P k eta1 eta2 pubkey msg rcoin := by
  unfold vPoly e2Poly
  rw [prfIn_take]
  have hd : kyber_utils.decode 1 (msg.take 32) = kyber_utils.decode 1 msg := by
    have := decode_take 1 msg
    simpa using this
  rw [hd]
  congr 3
  congr 1
  apply polyAccum_congr
  intro i hi
  rw [tPrime_take k pubkey i hi, rHat_take]

theorem ctBlocks_take (P : Primitives) (k eta1 eta2 du : Nat) (pubkey rcoin : List Byte)
    (n : Nat) (hn : n ≤ k) :
    ctBlocks P k eta1 eta2 du (pubkey.take (k * (12 * 32) + 32)) (rcoin.take 32) n =
      ctBlocks P k eta1 eta2 du pubkey rcoin n := by
  induction n with
  | zero => rfl
  | succ m ih =>
      unfold ctBlocks
      rw [ih (Nat.le_of_succ_le hn), uPoly_take]

theorem encrypt_take (P : Primitives) (k eta1 eta2 du dv : Nat) (pubkey msg rcoin : List Byte) :
    cpapke.encrypt P k eta1 eta2 du dv (pubkey.take (k * (12 * 32) + 32)) (msg.take 32)
        (rcoin.take 32) =
      cpapke.encrypt P k eta1 eta2 du dv pubkey msg rcoin := by
  unfold cpapke.encrypt
  rw [ctBlocks_take P k eta1 eta2 du pubkey rcoin k (Nat.le_refl k), vPoly_take]

theorem ctBlocks_block (P : Primitives) (k eta1 eta2 du : Nat) (pubkey rcoin : List Byte) :
    ∀ n rest i, i < n →
      ((ctBlocks P k eta1 eta2 du pubkey rcoin n ++ rest).drop (i * (32 * du))).take (32 * du)
        = kyber_utils.encode du (kyber_utils.poly_compress du (uPoly P k eta1 eta2 pubkey rcoin i)) := by
  intro n
  induction n with
  | zero => intro rest i hi; exact absurd hi (Nat.not_lt_zero i)
  | succ m ih =>
      intro rest i hi
      rcases Nat.lt_succ_iff_lt_or_eq.mp hi with h | h
      · unfold ctBlocks
        rw [List.append_assoc]
        exact ih _ i h
      · subst h
        unfold ctBlocks
        rw [List.append_assoc]
        rw [List.drop_left' (ctBlocks_length P k eta1 eta2 du pubkey rcoin i)]
        exact List.take_left' (encode_length du _)

theorem encrypt_msg_prefix (P : Primitives) (k eta1 eta2 du dv : Nat)
    (pubkey msg1 msg2 rcoin : List Byte) (h : msg1.take 32 = msg2.take 32) :
    cpapke.encrypt P k eta1 eta2 du dv pubkey msg1 rcoin =
      cpapke.encrypt P k eta1 eta2 du dv pubkey msg2 rcoin := by
  unfold cpapke.encrypt vPoly
  have hd : kyber_utils.decode 1 msg1 = kyber_utils.decode 1 msg2 := by
    unfold kyber_utils.decode
    have h32 : msg1.take (32 * 1) = msg2.take (32 * 1) := by simpa using h
    rw [h32]
  rw [hd]

theorem encapsulate_mrand_take (P : Primitives) (k eta1 eta2 du dv : Nat)
    (pubkey mr1 mr2 : List Byte) (h : mr1.take 32 = mr2.take 32) :
    ccakem.encapsulate P k eta1 eta2 du dv pubkey mr1 =
      ccakem.encapsulate P k eta1 eta2 du dv pubkey mr2 := by
  have hm : fitLen 32 (0 : Byte) mr1 = fitLen 32 0 mr2 := by
    rw [← fitLen_take 32 0 mr1, h, fitLen_take]
  simp only [ccakem.encapsulate]
  rw [hm]

theorem encapsulate_ct_length (P : Primitives) (k eta1 eta2 du dv : Nat)
    (pubkey mrand : List Byte) :
    (ccakem.encapsulate P k eta1 eta2 du dv pubkey mrand).1.length = k * (32 * du) + 32 * dv := by
  simp only [ccakem.encapsulate]
  exact encrypt_length P k eta1 eta2 du dv pubkey _ _

theorem pkReads_ok (pubkey : List Byte) :
    ∀ n, (∀ i, i < n → i * (12 * 32) + 12 * 32 ≤ pubkey.length) → pkReads pubkey n = some () := by
  intro n
  induction n with
  | zero => intro _; rfl
  | succ m ih =>
      intro h
      have hc := h m (Nat.lt_succ_self m)
      simp [pkReads, readBytes, hc, ih (fun i hi => h i (Nat.lt_succ_of_lt hi))]

theorem encryptChecked_eq (P : Primitives) (k eta1 eta2 du dv : Nat)
    (pubkey msg rcoin : List Byte) (hpk : pubkey.length = k * (12 * 32) + 32)
    (hmsg : 32 ≤ msg.length) (hrc : 32 ≤ rcoin.length) :
    cpapke.encryptChecked P k eta1 eta2 du dv pubkey msg rcoin
      = some (cpapke.encrypt P k eta1 eta2 du dv pubkey msg rcoin) := by
  have h1 : pkReads pubkey k = some () := by
    apply pkReads_ok
    intro i hi
    have : (i + 1) * (12 * 32) ≤ k * (12 * 32) := Nat.mul_le_mul_right _ hi
    omega
  have h2 : readBytes pubkey (k * (12 * 32)) 32 =
      some ((pubkey.drop (k * (12 * 32))).take 32) := by
    unfold readBytes
    rw [if_pos (by omega)]
  have h3 : readBytes rcoin 0 32 = some ((rcoin.drop 0).take 32) := by
    unfold readBytes
    rw [if_pos (by omega)]
  have h4 : readBytes msg 0 32 = some ((msg.drop 0).take 32) := by
    unfold readBytes
    rw [if_pos (by omega)]
  simp [cpapke.encryptChecked, h1, h2, h3, h4]

theorem encapsulateChecked_eq (P : Primitives) (k eta1 eta2 du dv : Nat)
    (pubkey mrand : List Byte) (hpk : pubkey.length = k * (12 * 32) + 32) :
    ccakem.encapsulateChecked P k eta1 eta2 du dv pubkey mrand
      = some (ccakem.encapsulate P k eta1 eta2 du dv pubkey mrand) := by
  have h0 : readBytes pubkey 0 (k * (12 * 32) + 32) =
      some ((pubkey.drop 0).take (k * (12 * 32) + 32)) := by
    unfold readBytes
    rw [if_pos (by omega)]
  have hgl : (digest256 P (fitLen 32 0 mrand)
      ++ digest256 P (pubkey.take (k * (12 * 32) + 32))).length = 64 := by
    simp [digest256, fitLen_length]
  have hcoin : ((digest512 P (digest256 P (fitLen 32 0 mrand)
      ++ digest256 P (pubkey.take (k * (12 * 32) + 32)))).drop 32).length = 32 := by
    simp [digest512, fitLen_length]
  have h1 := encryptChecked_eq P k eta1 eta2 du dv pubkey
    (digest256 P (fitLen 32 0 mrand) ++ digest256 P (pubkey.take (k * (12 * 32) + 32)))
    ((digest512 P (digest256 P (fitLen 32 0 mrand)
        ++ digest256 P (pubkey.take (k * (12 * 32) + 32)))).drop 32)
    hpk (by omega) (by omega)
  have h2 : readBytes (ccakem.encapsulate P k eta1 eta2 du dv pubkey mrand).1 0
      (k * (32 * du) + 32 * dv) =
      some (((ccakem.encapsulate P k eta1 eta2 du dv pubkey mrand).1.drop 0).take
        (k * (32 * du) + 32 * dv)) := by
    unfold readBytes
    rw [if_pos]
    rw [encapsulate_ct_length]
    omega
  simp [ccakem.encapsulateChecked, h0, h1, h2]

/-- Claim C1 counterexample: encapsulate does NOT CPA-encrypt the freshly
sampled 32-byte message m itself.  At a concrete primitive instantiation, a
Kyber512-sized all-zero public key (length 2*384+32) and the 32-byte RNG draw
mOnes, the ciphertext produced by encapsulate differs from
CPA.encrypt(pk, m, r) with r the last 32 bytes of G(H(m) ‖ H(pk)): the source
passes g_in — whose first 32 bytes are H(m), not m — as the message. -/
theorem C1_counterexample :
    pk0.length = 2 * 384 + 32 ∧ mOnes.length = 32 ∧
    (ccakem.encapsulate dummyPrims 2 3 2 10 4 pk0 mOnes).1 ≠
      cpapke.encrypt dummyPrims 2 3 2 10 4 pk0 mOnes
        ((digest512 dummyPrims
          (digest256 dummyPrims mOnes ++ digest256 dummyPrims pk0)).drop 32) :=
  ⟨by decide, by decide, by decide⟩

/-- Claim C1 (amended): for every public key and 32-byte RNG draw m, the
ciphertext returned by encapsulate equals CPA.encrypt(pk, H(m), r) — the
SHA3-256 digest of m, not m itself — where r is the last 32 bytes of
G(H(m) ‖ H(pk)). -/
theorem C1_amended (P : Primitives) (k eta1 eta2 du dv : Nat) (pubkey mrand : List Byte)
    (h : mrand.length = 32) :
    (ccakem.encapsulate P k eta1 eta2 du dv pubkey mrand).1 =
      cpapke.encrypt P k eta1 eta2 du dv pubkey (digest256 P mrand)
        ((digest512 P (digest256 P mrand
          ++ digest256 P (pubkey.take (k * (12 * 32) + 32)))).drop 32) := by
  simp only [ccakem.encapsulate]
  rw [fitLen_eq_self 32 0 mrand h]
  apply encrypt_msg_prefix
  have h1 : (digest256 P mrand).length = 32 := fitLen_length 32 0 _
  rw [List.take_left' h1]
  rw [List.take_of_length_le (by omega)]

/-- Witness for C1_amended at a concrete input. -/
theorem C1_amended_witness :
    mOnes.length = 32 ∧
    (ccakem.encapsulate dummyPrims 2 3 2 10 4 pk0 mOnes).1 =
      cpapke.encrypt dummyPrims 2 3 2 10 4 pk0 (digest256 dummyPrims mOnes)
        ((digest512 dummyPrims (digest256 dummyPrims mOnes
          ++ digest256 dummyPrims (pk0.take (2 * (12 * 32) + 32)))).drop 32) :=
  ⟨by decide, C1_amended dummyPrims 2 3 2 10 4 pk0 mOnes (by decide)⟩

/-- Claim C2 counterexample: the matrix entry Â[i][j] regenerated inside
encrypt is NOT the parse of a SHAKE128 stream seeded with ρ ‖ j ‖ i.  With a
primitive instantiation whose parse records seed bytes 32 and 33, at i = 0,
j = 1 the entry differs from the parse of the stream seeded ρ ‖ j ‖ i
(byte 32 = j = 1, byte 33 = i = 0): the source places i in byte 32 and j in
byte 33. -/
theorem C2_counterexample :
    Amat sensPrims 2 pk0 0 1 ≠
      pfit (sensPrims.parseXof ((pk0.drop (2 * (12 * 32))).take 32 ++ [1, 0])) := by
  decide

/-- Claim C2 (amended): for every i, j, the matrix entry Â[i][j] regenerated
inside encrypt is the rejection-sampling parse of a SHAKE128 stream seeded
with the 34-byte input ρ ‖ i ‖ j: the ROW index i is placed in byte 32 and
the COLUMN index j in byte 33 of the XOF input (each reduced mod 256 by the
uint8_t cast). -/
theorem C2_amended (P : Primitives) (k : Nat) (pubkey : List Byte) (i j : Nat)
    (h : k * (12 * 32) + 32 ≤ pubkey.length) :
    Amat P k pubkey i j =
      pfit (P.parseXof ((pubkey.drop (k * (12 * 32))).take 32 ++ [i % 256, j % 256])) := by
  unfold Amat
  rw [xofIn_rho _ i j (by simp [List.length_drop]; omega)]

/-- Witness for C2_amended at a concrete input. -/
theorem C2_amended_witness :
    2 * (12 * 32) + 32 ≤ pk0.length ∧
    Amat dummyPrims 2 pk0 0 1 =
      pfit (dummyPrims.parseXof ((pk0.drop (2 * (12 * 32))).take 32 ++ [0 % 256, 1 % 256])) :=
  ⟨by decide, C2_amended dummyPrims 2 pk0 0 1 (by decide)⟩

/-- Claim C3: encrypt derives its noise polynomials with the single-byte PRF
counter N taking each value exactly once and in order — r[i] from
SHAKE256(rcoin ‖ i) squeezing 64*eta1 bytes through CBD_eta1 for i < k, then
e1[i] from SHAKE256(rcoin ‖ (k+i)) with eta2, then e2 from
SHAKE256(rcoin ‖ 2k) with eta2; for k ≤ 4 the counter values 0..2k are below
256, so the uint8_t counter never wraps. -/
theorem C3_noise_order (P : Primitives) (k eta1 eta2 : Nat) (rcoin : List Byte) (i : Nat)
    (hk : k ≤ 4) (hik : i < k) (hrc : 32 ≤ rcoin.length) :
    rPoly P eta1 rcoin i
        = kyber_utils.cbd eta1 (shakeSqueeze P (rcoin.take 32 ++ [i]) (64 * eta1)) ∧
    e1Poly P k eta2 rcoin i
        = kyber_utils.cbd eta2 (shakeSqueeze P (rcoin.take 32 ++ [k + i]) (64 * eta2)) ∧
    e2Poly P k eta2 rcoin
        = kyber_utils.cbd eta2 (shakeSqueeze P (rcoin.take 32 ++ [2 * k]) (64 * eta2)) := by
  refine ⟨?_, ?_, ?_⟩
  · unfold rPoly
    rw [prfIn_rc rcoin i hrc, Nat.mod_eq_of_lt (by omega)]
  · unfold e1Poly
    rw [prfIn_rc rcoin (k + i) hrc, Nat.mod_eq_of_lt (by omega)]
  · unfold e2Poly
    rw [prfIn_rc rcoin (2 * k) hrc, Nat.mod_eq_of_lt (by omega)]

/-- Witness for C3_noise_order at a concrete input (Kyber512 parameters). -/
theorem C3_noise_order_witness :
    (2 ≤ 4 ∧ 0 < 2 ∧ 32 ≤ rc0.length) ∧
    (rPoly dummyPrims 3 rc0 0
        = kyber_utils.cbd 3 (shakeSqueeze dummyPrims (rc0.take 32 ++ [0]) (64 * 3)) ∧
     e1Poly dummyPrims 2 2 rc0 0
        = kyber_utils.cbd 2 (shakeSqueeze dummyPrims (rc0.take 32 ++ [2 + 0]) (64 * 2)) ∧
     e2Poly dummyPrims 2 2 rc0
        = kyber_utils.cbd 2 (shakeSqueeze dummyPrims (rc0.take 32 ++ [2 * 2]) (64 * 2))) :=
  ⟨⟨by decide, by decide, by decide⟩,
    C3_noise_order dummyPrims 2 3 2 rc0 0 (by decide) (by decide) (by decide)⟩

/-- Claim C4: the SHAKE256 handle returned by encapsulate has absorbed exactly
the 64-byte input K̄ ‖ SHA3-256(c), where K̄ is the first 32 bytes of
SHA3-512(SHA3-256(m) ‖ SHA3-256(pk)) and c is the ciphertext just produced. -/
theorem C4_kdf_input (P : Primitives) (k eta1 eta2 du dv : Nat) (pubkey mrand : List Byte)
    (h : mrand.length = 32) :
    (ccakem.encapsulate P k eta1 eta2 du dv pubkey mrand).2.absorbed
        = (digest512 P (digest256 P mrand
            ++ digest256 P (pubkey.take (k * (12 * 32) + 32)))).take 32
          ++ digest256 P (ccakem.encapsulate P k eta1 eta2 du dv pubkey mrand).1 ∧
    (ccakem.encapsulate P k eta1 eta2 du dv pubkey mrand).2.absorbed.length = 64 := by
  constructor
  · simp only [ccakem.encapsulate]
    rw [fitLen_eq_self 32 0 mrand h]
  · simp only [ccakem.encapsulate]
    simp [digest256, digest512, fitLen_length]

/-- Witness for C4_kdf_input at a concrete input. -/
theorem C4_kdf_input_witness :
    mOnes.length = 32 ∧
    ((ccakem.encapsulate dummyPrims 2 3 2 10 4 pk0 mOnes).2.absorbed
        = (digest512 dummyPrims (digest256 dummyPrims mOnes
            ++ digest256 dummyPrims (pk0.take (2 * (12 * 32) + 32)))).take 32
          ++ digest256 dummyPrims (ccakem.encapsulate dummyPrims 2 3 2 10 4 pk0 mOnes).1 ∧
     (ccakem.encapsulate dummyPrims 2 3 2 10 4 pk0 mOnes).2.absorbed.length = 64) :=
  ⟨by decide, C4_kdf_input dummyPrims 2 3 2 10 4 pk0 mOnes (by decide)⟩

/-- Claim C5: for every (pk, msg, rcoin) the ciphertext written by encrypt is
laid out as k consecutive blocks of 32*d_u bytes, block i (at byte offset
i*32*d_u) holding Encode_du(Compress_du(u[i])), followed by one block of
32*d_v bytes holding Encode_dv(Compress_dv(v)) at offset k*32*d_u, for a
total of exactly 32*(d_u*k + d_v) bytes. -/
theorem C5_ct_layout (P : Primitives) (k eta1 eta2 du dv : Nat) (pubkey msg rcoin : List Byte) :
    (∀ i, i < k →
      ((cpapke.encrypt P k eta1 eta2 du dv pubkey msg rcoin).drop (i * (32 * du))).take (32 * du)
        = kyber_utils.encode du (kyber_utils.poly_compress du (uPoly P k eta1 eta2 pubkey rcoin i))) ∧
    (cpapke.encrypt P k eta1 eta2 du dv pubkey msg rcoin).drop (k * (32 * du))
        = kyber_utils.encode dv (kyber_utils.poly_compress dv (vPoly P k eta1 eta2 pubkey msg rcoin)) ∧
    (cpapke.encrypt P k eta1 eta2 du dv pubkey msg rcoin).length = 32 * (du * k + dv) := by
  refine ⟨?_, ?_, ?_⟩
  · intro i hi
    unfold cpapke.encrypt
    exact ctBlocks_block P k eta1 eta2 du pubkey rcoin k _ i hi
  · unfold cpapke.encrypt
    exact List.drop_left' (ctBlocks_length P k eta1 eta2 du pubkey rcoin k)
  · rw [encrypt_length]
    ring

/-- Witness for C5_ct_layout at a concrete input: block 0 of the ciphertext. -/
theorem C5_ct_layout_witness :
    ((cpapke.encrypt dummyPrims 2 3 2 10 4 pk0 mOnes rc0).drop (0 * (32 * 10))).take (32 * 10)
      = kyber_utils.encode 10 (kyber_utils.poly_compress 10 (uPoly dummyPrims 2 3 2 pk0 rc0 0)) :=
  (C5_ct_layout dummyPrims 2 3 2 10 4 pk0 mOnes rc0).1 0 (by decide)

/-- Claim C6: the polynomial v compressed into the last ciphertext block (the
bytes from offset k*32*d_u on) equals INTT(t̂ · r̂) + e2
+ Decompress_1(Decode_1(msg)), where t̂[i] is Decode_12 of bytes
[i*384, (i+1)*384) of pk, the dot product is the sum over i < k of the
NTT-domain pointwise products t̂[i] ∘ r̂[i], and all additions are
coefficient-wise in Z_q. -/
theorem C6_v_formula (P : Primitives) (k eta1 eta2 du dv : Nat) (pubkey msg rcoin : List Byte) :
    (cpapke.encrypt P k eta1 eta2 du dv pubkey msg rcoin).drop (k * (32 * du))
      = kyber_utils.encode dv (kyber_utils.poly_compress dv
          (polyAdd
            (polyAdd
              (pfit (P.intt (polyAccum k (fun i =>
                pfit (P.polymul
                  (kyber_utils.decode 12 ((pubkey.drop (i * (12 * 32))).take (12 * 32)))
                  (pfit (P.ntt (rPoly P eta1 rcoin i))))))))
              (e2Poly P k eta2 rcoin))
            (kyber_utils.poly_decompress 1 (kyber_utils.decode 1 msg)))) := by
  unfold cpapke.encrypt
  rw [List.drop_left' (ctBlocks_length P k eta1 eta2 du pubkey rcoin k)]
  rfl

/-- Claim C7: encrypt is deterministic — identical (pk, msg, rcoin) give
identical ciphertext bytes — and encapsulate is a pure function of pk plus
exactly the 32 bytes of its single RNG draw: same pk and same 32 drawn bytes
give identical ciphertexts and identical returned SHAKE256 states. -/
theorem C7_pure (P : Primitives) (k eta1 eta2 du dv : Nat)
    (pk1 pk2 msg1 msg2 rcn1 rcn2 mr1 mr2 : List Byte) :
    (pk1 = pk2 → msg1 = msg2 → rcn1 = rcn2 →
      cpapke.encrypt P k eta1 eta2 du dv pk1 msg1 rcn1
        = cpapke.encrypt P k eta1 eta2 du dv pk2 msg2 rcn2) ∧
    (pk1 = pk2 → mr1.take 32 = mr2.take 32 →
      ccakem.encapsulate P k eta1 eta2 du dv pk1 mr1
        = ccakem.encapsulate P k eta1 eta2 du dv pk2 mr2) := by
  constructor
  · intro h1 h2 h3
    rw [h1, h2, h3]
  · intro h1 h2
    rw [h1]
    exact encapsulate_mrand_take P k eta1 eta2 du dv pk2 mr1 mr2 h2

/-- Witness for C7_pure: two RNG buffers agreeing on their first 32 bytes give
identical encapsulation results. -/
theorem C7_pure_witness :
    (pk0 = pk0 ∧ mOnes.take 32 = mLong.take 32) ∧
    ccakem.encapsulate dummyPrims 2 3 2 10 4 pk0 mOnes
      = ccakem.encapsulate dummyPrims 2 3 2 10 4 pk0 mLong :=
  ⟨⟨rfl, by decide⟩,
    (C7_pure dummyPrims 2 3 2 10 4 pk0 pk0 rc0 rc0 rc0 rc0 mOnes mLong).2 rfl (by decide)⟩

/-- Claim C9: on correctly sized inputs, encrypt and encapsulate are total and
every buffer access is in bounds: the bounds-checked variants succeed and
agree with the unchecked functions, the output has exactly 32*(d_u*k + d_v)
bytes, and encrypt reads nothing beyond the first k*384+32 bytes of pk, the
first 32 bytes of msg and the first 32 bytes of rcoin. -/
theorem C9_total_inbounds (P : Primitives) (k eta1 eta2 du dv : Nat)
    (pubkey msg rcoin mrand : List Byte) (hpk : pubkey.length = k * (12 * 32) + 32)
    (hmsg : 32 ≤ msg.length) (hrc : 32 ≤ rcoin.length) :
    cpapke.encryptChecked P k eta1 eta2 du dv pubkey msg rcoin
        = some (cpapke.encrypt P k eta1 eta2 du dv pubkey msg rcoin) ∧
    (cpapke.encrypt P k eta1 eta2 du dv pubkey msg rcoin).length = 32 * (du * k + dv) ∧
    cpapke.encrypt P k eta1 eta2 du dv (pubkey.take (k * (12 * 32) + 32)) (msg.take 32)
        (rcoin.take 32) = cpapke.encrypt P k eta1 eta2 du dv pubkey msg rcoin ∧
    ccakem.encapsulateChecked P k eta1 eta2 du dv pubkey mrand
        = some (ccakem.encapsulate P k eta1 eta2 du dv pubkey mrand) := by
  refine ⟨encryptChecked_eq P k eta1 eta2 du dv pubkey msg rcoin hpk hmsg hrc, ?_,
    encrypt_take P k eta1 eta2 du dv pubkey msg rcoin,
    encapsulateChecked_eq P k eta1 eta2 du dv pubkey mrand hpk⟩
  rw [encrypt_length]
  ring

/-- Witness for C9_total_inbounds at a concrete input. -/
theorem C9_total_inbounds_witness :
    (pk0.length = 2 * (12 * 32) + 32 ∧ 32 ≤ mOnes.length ∧ 32 ≤ rc0.length) ∧
    cpapke.encryptChecked dummyPrims 2 3 2 10 4 pk0 mOnes rc0
        = some (cpapke.encrypt dummyPrims 2 3 2 10 4 pk0 mOnes rc0) ∧
    (cpapke.encrypt dummyPrims 2 3 2 10 4 pk0 mOnes rc0).length = 32 * (10 * 2 + 4) ∧
    cpapke.encrypt dummyPrims 2 3 2 10 4 (pk0.take (2 * (12 * 32) + 32)) (mOnes.take 32)
        (rc0.take 32) = cpapke.encrypt dummyPrims 2 3 2 10 4 pk0 mOnes rc0 ∧
    ccakem.encapsulateChecked dummyPrims 2 3 2 10 4 pk0 mOnes
        = some (ccakem.encapsulate dummyPrims 2 3 2 10 4 pk0 mOnes) :=
  ⟨⟨by decide, by decide, by decide⟩,
    C9_total_inbounds dummyPrims 2 3 2 10 4 pk0 mOnes rc0 mOnes
      (by decide) (by decide) (by decide)⟩

/-- Claim C10: at the public interface encrypt mutates only the output buffer:
after the call the pk, msg and rcoin buffers hold exactly the bytes they held
on entry, and of the caller-visible state only the k*d_u*32 + d_v*32 output
bytes are (all) written. -/
theorem C10_frame (P : Primitives) (k eta1 eta2 du dv : Nat) (s : CallerState) :
    (encryptCall P k eta1 eta2 du dv s).pk = s.pk ∧
    (encryptCall P k eta1 eta2 du dv s).msg = s.msg ∧
    (encryptCall P k eta1 eta2 du dv s).rcoin = s.rcoin ∧
    (encryptCall P k eta1 eta2 du dv s).out
        = cpapke.encrypt P k eta1 eta2 du dv s.pk s.msg s.rcoin ∧
    (encryptCall P k eta1 eta2 du dv s).out.length = k * du * 32 + dv * 32 := by
  refine ⟨rfl, rfl, rfl, rfl, ?_⟩
  show (cpapke.encrypt P k eta1 eta2 du dv s.pk s.msg s.rcoin).length = k * du * 32 + dv * 32
  rw [encrypt_length]
  ring
